import Mathlib

/-!
Verification of the CleanCloud / Audit_BTP_Tool inventory engine.

This file gives a shallow embedding, in Lean 4, of the parts of the
repository that the specification's claims are about:

* `src/cleaning/debris_filter.py` — the debris classifier (`DebrisFilter.evaluate`);
* `config/settings.py` — the extension-family tables (`EXTENSION_MAP`);
* `src/utils/metadata_engine.py` — the metadata dispatcher
  (`MetadataDispatcher.dispatch`) and the raw-DWG analyzer
  (`CadExtractor._analyze_dwg_binary`);
* `src/utils/hasher.py` — the content-identity sentinels;
* `src/connectors/local_loader.py` — per-file record assembly in
  `scan_directory`;
* `src/utils/db_client.py` — the inventory store: `insert_full_entry`
  (upsert-then-attach transaction) and `get_duplicates`;
* `main.py` — the wasted-size computation of `generate_report`.

Machine-level detail that does not affect the claims (SQLite wire format,
real file descriptors, wall-clock time) is abstracted: tables are Lean
lists, file contents are lists of byte values, hashing is an opaque
function parameter.
-/

namespace CleanCloud

/-! ## Debris classifier — `src/cleaning/debris_filter.py` -/

/-- `DebrisFilter.TRASH_EXTENSIONS`: extensions condemned outright. -/
def TRASH_EXTENSIONS : List String :=
  [".bak", ".sv$", ".tmp", ".log", ".ds_store",
   ".plot.log", ".err", ".dmp", ".old"]

/-- `DebrisFilter.TRASH_FILENAMES`: system / cache filenames. -/
def TRASH_FILENAMES : List String :=
  ["thumbs.db", "desktop.ini", ".bridgecache"]

/-- Lower-case an ASCII letter; other characters are unchanged.
Embeds Python `str.lower()` on the character range the repository's
deny lists and extensions use. -/
def lowerChar (c : Char) : Char :=
  if 'A' ≤ c ∧ c ≤ 'Z' then Char.ofNat (c.toNat + 32) else c

/-- Python `s.lower()` (ASCII range). -/
def lowerStr (s : String) : String :=
  (s.toList.map lowerChar).asString

/-- `pat` occurs as a contiguous run inside `l`. -/
def hasInfix (pat : List Char) : List Char → Bool
  | [] => pat.isEmpty
  | c :: rest => pat.isPrefixOf (c :: rest) || hasInfix pat rest

/-- Python `token in s` substring test, on the character lists. -/
def containsToken (token s : String) : Bool :=
  hasInfix token.toList s.toList

/-- `DebrisFilter.evaluate(filename, extension)`: returns
(risk score, status). Straight transliteration of the if-chain. -/
def evaluate (filename extension : String) : Nat × String :=
  if extension ∈ TRASH_EXTENSIONS then (100, "TRASH_EXT")
  else if lowerStr filename ∈ TRASH_FILENAMES then (100, "TRASH_SYS")
  else if containsToken "conflit" (lowerStr filename) &&
          containsToken "copie" (lowerStr filename) then (90, "CONFLICT_COPY")
  else (0, "PENDING")

/-! ## Extension families — `config/settings.py` -/

def EXT_CAD : List String := [".dwg", ".dxf", ".rvt", ".ifc", ".nwd", ".pln"]
def EXT_DOC : List String := [".pdf", ".docx", ".doc", ".odt", ".rtf", ".txt", ".md"]
def EXT_IMG : List String := [".jpg", ".jpeg", ".png", ".tiff", ".tif", ".webp", ".bmp"]
def EXT_XLS : List String := [".xlsx", ".xls", ".csv", ".ods", ".xml"]
def EXT_ARC : List String := [".zip", ".rar", ".7z", ".tar", ".gz"]

/-- `settings.EXTENSION_MAP`: reverse map extension → satellite table,
built family by family (the families are pairwise disjoint, so the
iteration order of the Python sets does not affect lookups). -/
def EXTENSION_MAP : List (String × String) :=
  EXT_CAD.map (fun e => (e, "meta_cad")) ++
  EXT_DOC.map (fun e => (e, "meta_document")) ++
  EXT_IMG.map (fun e => (e, "meta_visual")) ++
  EXT_XLS.map (fun e => (e, "meta_spreadsheet")) ++
  EXT_ARC.map (fun e => (e, "meta_archive"))

/-! ## Metadata dispatcher — `src/utils/metadata_engine.py` -/

/-- The four extractors the dispatcher can route to. -/
inductive Extractor where
  | pdfExtractor
  | imageExtractor
  | cadExtractor
  | spreadsheetExtractor
deriving DecidableEq

/-- Literal list in branch 2 of `MetadataDispatcher.dispatch`. -/
def DISPATCH_IMG : List String := [".jpg", ".jpeg", ".png", ".tiff", ".webp", ".bmp"]

/-- Literal list in branch 3 of `MetadataDispatcher.dispatch`. -/
def DISPATCH_CAD : List String := [".dwg", ".dxf", ".rvt", ".ifc"]

/-- Literal list in branch 4 of `MetadataDispatcher.dispatch`. -/
def DISPATCH_XLS : List String := [".xlsx", ".xls", ".csv"]

/-- `MetadataDispatcher.dispatch(file_path, extension)` — the routing
decision.  The file path is only forwarded to the chosen extractor and
plays no role in routing, so the embedding takes the extension alone and
returns the destination table together with the extractor chosen;
`(none, none)` stands for the Python `(None, \x7b\x7d)` result. -/
def dispatch (extension : String) : Option String × Option Extractor :=
  let ext := lowerStr extension
  if ext == ".pdf" then (some "meta_document", some Extractor.pdfExtractor)
  else if ext ∈ DISPATCH_IMG then (some "meta_visual", some Extractor.imageExtractor)
  else if ext ∈ DISPATCH_CAD then (some "meta_cad", some Extractor.cadExtractor)
  else if ext ∈ DISPATCH_XLS then (some "meta_spreadsheet", some Extractor.spreadsheetExtractor)
  else (none, none)

/-! ## CAD extractor, raw DWG branch — `src/utils/metadata_engine.py` -/

/-- `CadExtractor.ACAD_VERSIONS`: 6-byte magic → human-readable version.
Keys are the byte values of the ASCII strings AC1032, AC1027, … -/
def ACAD_VERSIONS : List (List Nat × String) :=
  [([0x41, 0x43, 0x31, 0x30, 0x33, 0x32], "AutoCAD 2018/2023"),
   ([0x41, 0x43, 0x31, 0x30, 0x32, 0x37], "AutoCAD 2013/2017"),
   ([0x41, 0x43, 0x31, 0x30, 0x32, 0x34], "AutoCAD 2010/2012"),
   ([0x41, 0x43, 0x31, 0x30, 0x32, 0x31], "AutoCAD 2007/2009"),
   ([0x41, 0x43, 0x31, 0x30, 0x31, 0x38], "AutoCAD 2004/2006"),
   ([0x41, 0x43, 0x31, 0x30, 0x31, 0x35], "AutoCAD 2000/2002"),
   ([0x41, 0x43, 0x31, 0x30, 0x31, 0x34], "AutoCAD R14"),
   ([0x41, 0x43, 0x31, 0x30, 0x30, 0x39], "AutoCAD R11/R12")]

/-- Dictionary lookup `header in ACAD_VERSIONS` / `ACAD_VERSIONS[header]`. -/
def lookupSig (header : List Nat) : Option String :=
  (ACAD_VERSIONS.find? (fun p => p.1 == header)).map (fun p => p.2)

/-- Is `b` a UTF-8 continuation byte (0x80–0xBF)? -/
def isCont (b : Nat) : Bool := 0x80 ≤ b && b ≤ 0xBF

/-- First continuation byte admissible after the 3-byte lead `b`
(the narrowed ranges reject overlong encodings and surrogates). -/
def cont3ok (b c1 : Nat) : Bool :=
  (b == 0xE0 && 0xA0 ≤ c1 && c1 ≤ 0xBF) ||
  (b == 0xED && 0x80 ≤ c1 && c1 ≤ 0x9F) ||
  (b != 0xE0 && b != 0xED && isCont c1)

/-- First continuation byte admissible after the 4-byte lead `b`. -/
def cont4ok (b c1 : Nat) : Bool :=
  (b == 0xF0 && 0x90 ≤ c1 && c1 ≤ 0xBF) ||
  (b == 0xF4 && 0x80 ≤ c1 && c1 ≤ 0x8F) ||
  (b != 0xF0 && b != 0xF4 && isCont c1)

/-- One decoding step at byte `b` with the bytes `tail` after it:
returns the decoded character, if any, and the bytes still to decode
(always a suffix of `tail`, so a step consumes at least one byte).
A byte that cannot start or complete a sequence yields no character,
as Python's `errors=ignore` handler drops the offending subpart. -/
def utf8Step (b : Nat) (tail : List Nat) : Option Char × List Nat :=
  if b < 0x80 then (some (Char.ofNat b), tail)
  else if 0xC2 ≤ b && b ≤ 0xDF then
    match tail with
    | [] => (none, [])
    | c1 :: r =>
      if isCont c1 then (some (Char.ofNat ((b - 0xC0) * 0x40 + (c1 - 0x80))), r)
      else (none, tail)
  else if 0xE0 ≤ b && b ≤ 0xEF then
    match tail with
    | [] => (none, [])
    | c1 :: r =>
      if cont3ok b c1 then
        match r with
        | [] => (none, [])
        | c2 :: r2 =>
          if isCont c2 then
            (some (Char.ofNat ((b - 0xE0) * 0x1000 + (c1 - 0x80) * 0x40 + (c2 - 0x80))), r2)
          else (none, r)
      else (none, tail)
  else if 0xF0 ≤ b && b ≤ 0xF4 then
    match tail with
    | [] => (none, [])
    | c1 :: r =>
      if cont4ok b c1 then
        match r with
        | [] => (none, [])
        | c2 :: r2 =>
          if isCont c2 then
            match r2 with
            | [] => (none, [])
            | c3 :: r3 =>
              if isCont c3 then
                (some (Char.ofNat ((b - 0xF0) * 0x40000 + (c1 - 0x80) * 0x1000 +
                                   (c2 - 0x80) * 0x40 + (c3 - 0x80))), r3)
              else (none, r2)
          else (none, r)
      else (none, tail)
  else (none, tail)

/-- Fuel-driven decode loop; the fuel is initialised to the input
length, which suffices because every step consumes a byte. -/
def utf8DecodeIgnoreAux : Nat → List Nat → List Char
  | 0, _ => []
  | _, [] => []
  | fuel + 1, b :: tail =>
    match utf8Step b tail with
    | (some c, next) => c :: utf8DecodeIgnoreAux fuel next
    | (none, next) => utf8DecodeIgnoreAux fuel next

/-- Bytes → code points, embedding Python
`bytes.decode(utf-8, errors=ignore)`: well-formed sequences
(overlongs and surrogates rejected) decode to their scalar value,
and bytes that cannot start or complete a sequence are dropped. -/
def utf8DecodeIgnore (l : List Nat) : List Char :=
  utf8DecodeIgnoreAux l.length l

/-- The satellite attributes `CadExtractor._analyze_dwg_binary` fills in. -/
structure DwgMeta where
  software_version : String
  has_xrefs : Bool
  scale : String
deriving DecidableEq

/-- `CadExtractor._analyze_dwg_binary(path)` on a readable file whose
byte content is `fileBytes`: reads the first 6 bytes and matches them
against `ACAD_VERSIONS` (the unreadable-file branch, which stores an
`Error: ...` label instead, is outside this embedding). -/
def analyze_dwg_binary (fileBytes : List Nat) : DwgMeta :=
  let header := fileBytes.take 6
  match lookupSig header with
  | some v => { software_version := v, has_xrefs := false, scale := "1:1" }
  | none =>
    { software_version := "Legacy/New (" ++ (utf8DecodeIgnore header).asString ++ ")",
      has_xrefs := false, scale := "1:1" }

/-! ## Content-identity sentinels — `src/utils/hasher.py`, `src/connectors/local_loader.py` -/

/-- `FileManager.get_file_hash` returns this when the file cannot be read. -/
def ACCESS_DENIED : String := "ACCESS_DENIED"

/-- `scan_directory` stores this instead of hashing a `TRASH_SYS` file. -/
def SKIPPED_TRASH : String := "SKIPPED_TRASH"

/-! ## Per-file record assembly — `src/connectors/local_loader.py` -/

/-- Index of the last `.` in `cs`, if any. -/
def rfindDot (cs : List Char) : Option Nat :=
  match cs.reverse.findIdx? (fun c => c == '.') with
  | none => none
  | some k => some (cs.length - 1 - k)

/-- `os.path.splitext` restricted to a bare filename (no directory
separator), which is how `scan_directory` calls it (on `entry.name`):
split at the last dot, unless every character before that dot is
itself a dot (so leading-dot names keep no extension). -/
def splitext (p : String) : String × String :=
  let cs := p.toList
  match rfindDot cs with
  | none => (p, "")
  | some i =>
    if (cs.take i).any (fun c => c != '.') then
      ((cs.take i).asString, (cs.drop i).asString)
    else (p, "")

/-- What `os.scandir` reports for one regular file: name, full path,
and the `entry.stat()` fields the loader reads. -/
structure FileInfo where
  name : String
  path : String
  size : Nat
  ctime : String
  mtime : String
deriving DecidableEq

/-- The `main_data` dictionary handed to `insert_full_entry`. -/
structure MainData where
  path_hash : String
  content_hash : String
  file_path : String
  filename : String
  visible_ext : String
  true_ext : String
  size_bytes : Nat
  dates_created : String
  dates_modified : String
  category : String
  risk_score : Nat
  status : String
deriving DecidableEq

/-- The per-file block of `scan_directory`: derive the lower-cased
extension, classify, hash unless the classifier said `TRASH_SYS`, and
assemble `main_data`.  Content hashing and path hashing are opaque
functions of the path (`FileManager.get_file_hash`,
`FileManager.get_path_hash`); timestamps come from `entry.stat()`. -/
def processFile (hasher pathHasher : String → String) (f : FileInfo) : MainData :=
  let ext := lowerStr (splitext f.name).2
  let rc := evaluate f.name ext
  let category := if rc.2 == "PENDING" then "WORK_FILE" else rc.2
  let content_hash := if category == "TRASH_SYS" then SKIPPED_TRASH else hasher f.path
  { path_hash := pathHasher f.path
    content_hash := content_hash
    file_path := f.path
    filename := f.name
    visible_ext := ext
    true_ext := ext
    size_bytes := f.size
    dates_created := f.ctime
    dates_modified := f.mtime
    category := category
    risk_score := rc.1
    status := "SCANNED" }

/-! ## Inventory store — `src/utils/db_client.py`

The parent table `files_inventory` is a list of rows in rowid order;
the five satellite tables are pooled into one association list keyed
by (table name, file id), which is faithful because each satellite
table has `file_id` as its primary key.  `nextId` plays the
AUTOINCREMENT counter. -/

/-- One row of `files_inventory`. -/
structure Row where
  id : Nat
  path_hash : String
  content_hash : String
  file_path : String
  filename : String
  visible_ext : String
  true_ext : String
  size_bytes : Nat
  dates_created : String
  dates_modified : String
  category : String
  status : String
  risk_score : Nat
deriving DecidableEq

/-- Satellite attributes, as the column/value pairs of the dynamic
`INSERT OR REPLACE` statement (values kept as rendered strings; no
claim inspects them). -/
def MetaPayload := List (String × String)
deriving instance DecidableEq for MetaPayload

/-- The whole database. -/
structure Store where
  rows : List Row
  nextId : Nat
  meta : List (String × Nat × MetaPayload)
deriving DecidableEq

/-- A freshly opened `inventory_v2.sqlite` (rowids start at 1). -/
def emptyStore : Store := { rows := [], nextId := 1, meta := [] }

/-- The `DO UPDATE SET` clause of the upsert: on a `file_path`
conflict, only `content_hash`, `dates_modified`, `status` and
`risk_score` are overwritten from the excluded row. -/
def updateRow (r : Row) (d : MainData) : Row :=
  { r with content_hash := d.content_hash
           dates_modified := d.dates_modified
           status := d.status
           risk_score := d.risk_score }

/-- The row a plain `INSERT` creates from `main_data`, with rowid `i`. -/
def rowOfData (i : Nat) (d : MainData) : Row :=
  { id := i
    path_hash := d.path_hash
    content_hash := d.content_hash
    file_path := d.file_path
    filename := d.filename
    visible_ext := d.visible_ext
    true_ext := d.true_ext
    size_bytes := d.size_bytes
    dates_created := d.dates_created
    dates_modified := d.dates_modified
    category := d.category
    status := d.status
    risk_score := d.risk_score }

/-- The `INSERT ... ON CONFLICT(file_path) DO UPDATE` statement:
update the conflicting row in place, or append a new row with the
next rowid. -/
def upsertMain (st : Store) (d : MainData) : Store :=
  if st.rows.any (fun r => r.file_path == d.file_path) then
    { st with rows :=
        st.rows.map (fun r => if r.file_path == d.file_path then updateRow r d else r) }
  else
    { st with rows := st.rows ++ [rowOfData st.nextId d], nextId := st.nextId + 1 }

/-- `INSERT OR REPLACE INTO meta_table (file_id, ...) VALUES ...`:
replace the satellite row with that (table, file id) key in place, or
append it.  In SQLite the replaced row keeps its rowid (`file_id` is
the primary key), so in-place replacement is the faithful model. -/
def metaReplace (m : List (String × Nat × MetaPayload)) (t : String) (i : Nat)
    (p : MetaPayload) : List (String × Nat × MetaPayload) :=
  if m.any (fun e => e.1 == t && e.2.1 == i) then
    m.map (fun e => if e.1 == t && e.2.1 == i then (t, i, p) else e)
  else m ++ [(t, i, p)]

/-- Step (c) of the transaction: attach the satellite row when a table
name and a non-empty attribute dictionary were supplied (the Python
guard `if meta_table and meta_data`). -/
def attachMeta (st1 : Store) (fid : Nat) (mt : Option String) (md : MetaPayload) : Store :=
  match mt with
  | some t =>
    if t ≠ "" ∧ md ≠ ([] : List (String × String)) then
      { st1 with meta := metaReplace st1.meta t fid md }
    else st1
  | none => st1

/-- Where a storage (`sqlite3.Error`) failure is injected, together
with the engine's error text. -/
inductive FailPoint where
  | parentInsert
  | resolveId
  | metaInsert
deriving DecidableEq

/-- The message `insert_full_entry` prints on a rolled-back transaction. -/
def sqlError (filename msg : String) : String :=
  "[SQL ERROR] Sur " ++ filename ++ ": " ++ msg

/-- The body of `DatabaseManager.insert_full_entry` as a fallible
sequence of steps over the committed store `st`: upsert the parent
row, re-select the row id by path, attach the satellite row.  `fail`
injects a `sqlite3.Error` (with its message) at one of the three
statements; `Except.error` means the exception reached the handler
before `conn.commit()`.  The `find?` miss raises the same way (in the
source it raises a bare `Exception`; the branch is unreachable, since
the upsert always leaves a row at `d.file_path`). -/
def upsertSteps (st : Store) (d : MainData) (mt : Option String) (md : MetaPayload)
    (fail : Option (FailPoint × String)) : Except String Store :=
  match fail with
  | some (FailPoint.parentInsert, m) => Except.error m
  | _ =>
    let st1 := upsertMain st d
    match fail with
    | some (FailPoint.resolveId, m) => Except.error m
    | _ =>
      match st1.rows.find? (fun r => r.file_path == d.file_path) with
      | none => Except.error "ID non retrouvé après insertion."
      | some row =>
        match fail with
        | some (FailPoint.metaInsert, m) => Except.error m
        | _ => Except.ok (attachMeta st1 row.id mt md)

/-- `insert_full_entry` with its transaction boundary: commit the new
store on success; on failure roll back (the committed store is
unchanged) and print the error with the offending filename. -/
def insert_full_entry_tx (st : Store) (d : MainData) (mt : Option String)
    (md : MetaPayload) (fail : Option (FailPoint × String)) : Store × Option String :=
  match upsertSteps st d mt md fail with
  | Except.ok st2 => (st2, none)
  | Except.error m => (st, some (sqlError d.filename m))

/-- `insert_full_entry` on the failure-free path (what a successful
crawl executes per file). -/
def insert_full_entry (st : Store) (d : MainData) (mt : Option String)
    (md : MetaPayload) : Store :=
  match (upsertMain st d).rows.find? (fun r => r.file_path == d.file_path) with
  | none => st
  | some row => attachMeta (upsertMain st d) row.id mt md

/-- One work item of the crawl loop: the assembled record, the
dispatch result, and an optional injected storage failure. -/
structure Job where
  data : MainData
  table : Option String
  payload : MetaPayload
  fail : Option (FailPoint × String)

/-- The crawl loop's hand-off to the store, file after file; the
per-file `try/except` never aborts, so every job is processed and the
printed errors accumulate. -/
def crawlFold (st : Store) : List Job → Store × List String
  | [] => (st, [])
  | j :: rest =>
    let r1 := insert_full_entry_tx st j.data j.table j.payload j.fail
    let r2 := crawlFold r1.1 rest
    (r2.1, r1.2.toList ++ r2.2)

/-! ## Duplicate aggregation — `DatabaseManager.get_duplicates` and `main.generate_report` -/

/-- One result row of the `get_duplicates` query. -/
structure DupGroup where
  content_hash : String
  count : Nat
  paths : String
  total_wasted : Nat
deriving DecidableEq

/-- The query's `WHERE category != 'TRASH_EXT'` filter. -/
def dupFilter (rows : List Row) : List Row :=
  rows.filter (fun r => !(r.category == "TRASH_EXT"))

/-- The rows a group with fingerprint `h` aggregates: non-trash rows
whose `content_hash` is `h` (used to state the theorems without going
through the query pipeline itself). -/
def membersOf (rows : List Row) (h : String) : List Row :=
  rows.filter (fun r => r.content_hash == h && !(r.category == "TRASH_EXT"))

/-- `GROUP BY` keys: each value once, in first-appearance order (the
engine's group order is unspecified; the final `ORDER BY` fixes it). -/
def distinctKeys : List String → List String
  | [] => []
  | h :: t => h :: (distinctKeys t).filter (fun x => x != h)

/-- The filtered rows carrying fingerprint `h`. -/
def groupFor (f : List Row) (h : String) : List Row :=
  f.filter (fun r => r.content_hash == h)

/-- One aggregated result row: `COUNT(*)`, `GROUP_CONCAT(file_path,
' || ')` and `SUM(size_bytes)` over the group of `h`. -/
def mkGroup (f : List Row) (h : String) : DupGroup :=
  { content_hash := h
    count := (groupFor f h).length
    paths := String.intercalate " || " ((groupFor f h).map (fun r => r.file_path))
    total_wasted := ((groupFor f h).map (fun r => r.size_bytes)).sum }

/-- Insert while keeping the list ordered by `total_wasted` descending. -/
def insertByWasted (g : DupGroup) : List DupGroup → List DupGroup
  | [] => [g]
  | h :: t =>
    if h.total_wasted < g.total_wasted then g :: h :: t else h :: insertByWasted g t

/-- `ORDER BY total_wasted DESC` (ties in an unspecified order, as in SQLite). -/
def sortByWasted : List DupGroup → List DupGroup
  | [] => []
  | h :: t => insertByWasted h (sortByWasted t)

/-- `DatabaseManager.get_duplicates()`: group the non-trash rows by
content fingerprint, keep the groups with `HAVING count > 1`, and
order by summed size descending. -/
def get_duplicates (rows : List Row) : List DupGroup :=
  sortByWasted
    ((((distinctKeys ((dupFilter rows).map (fun r => r.content_hash))).map
        (mkGroup (dupFilter rows))).filter (fun g => decide (1 < g.count))))

/-- The per-group reclaimable size printed by `generate_report`:
`row['total_wasted'] - row['total_wasted'] / row['count']`.  Python's
float division is modelled as exact division in `ℚ` (it is exact for
any realistic sizes, all quantities being integers below 2^53). -/
def wastedOf (g : DupGroup) : ℚ :=
  (g.total_wasted : ℚ) - (g.total_wasted : ℚ) / (g.count : ℚ)

/-- Compact row builder for concrete instances (hash, path, category, size). -/
def mkRow (i : Nat) (h p cat : String) (sz : Nat) : Row :=
  { id := i
    path_hash := ""
    content_hash := h
    file_path := p
    filename := p
    visible_ext := ""
    true_ext := ""
    size_bytes := sz
    dates_created := ""
    dates_modified := ""
    category := cat
    status := "SCANNED"
    risk_score := 0 }

/-- No two parent rows share a `file_path` (the UNIQUE constraint). -/
def PathsUnique (rows : List Row) : Prop :=
  rows.Pairwise (fun a b => a.file_path ≠ b.file_path)

/-- Concrete record: first observation of path `/p` (size 5, work file). -/
def cexD0 : MainData :=
  { path_hash := "ph"
    content_hash := "c0"
    file_path := "/p"
    filename := "f"
    visible_ext := ".txt"
    true_ext := ".txt"
    size_bytes := 5
    dates_created := "t0"
    dates_modified := "t0"
    category := "WORK_FILE"
    risk_score := 0
    status := "SCANNED" }

/-- Concrete record: second observation of `/p` with new content hash,
new size 7, new category, new risk score, new modification date. -/
def cexD1 : MainData :=
  { cexD0 with content_hash := "c1"
               size_bytes := 7
               dates_modified := "t1"
               category := "TRASH_EXT"
               risk_score := 100 }

/-- Two work files with identical content fingerprint and size. -/
def wRowsDup : List Row :=
  [mkRow 1 "h" "/a" "WORK_FILE" 10, mkRow 2 "h" "/b" "WORK_FILE" 10]

/-- Two skipped system-junk rows and two unreadable rows. -/
def wRowsSent : List Row :=
  [mkRow 1 "SKIPPED_TRASH" "/a" "TRASH_SYS" 1, mkRow 2 "SKIPPED_TRASH" "/b" "TRASH_SYS" 1,
   mkRow 3 "ACCESS_DENIED" "/c" "WORK_FILE" 2, mkRow 4 "ACCESS_DENIED" "/d" "WORK_FILE" 2]

/-! ## Claim C2 — the debris classifier -/

/-- C2: `DebrisFilter.evaluate` applies its rules in order with first
match winning — junk extension → (100, TRASH_EXT); else lower-cased
filename in the system denylist → (100, TRASH_SYS); else lower-cased
filename containing both the conflict and the copy token →
(90, CONFLICT_COPY); else (0, PENDING) — and always returns one of
exactly these four results (it is a total pure function of the two
strings: no file content enters it and no case fails). -/
theorem evaluate_first_match (filename extension : String) :
    (extension ∈ TRASH_EXTENSIONS → evaluate filename extension = (100, "TRASH_EXT")) ∧
    (extension ∉ TRASH_EXTENSIONS → lowerStr filename ∈ TRASH_FILENAMES →
       evaluate filename extension = (100, "TRASH_SYS")) ∧
    (extension ∉ TRASH_EXTENSIONS → lowerStr filename ∉ TRASH_FILENAMES →
       (containsToken "conflit" (lowerStr filename) &&
        containsToken "copie" (lowerStr filename)) = true →
       evaluate filename extension = (90, "CONFLICT_COPY")) ∧
    (extension ∉ TRASH_EXTENSIONS → lowerStr filename ∉ TRASH_FILENAMES →
       (containsToken "conflit" (lowerStr filename) &&
        containsToken "copie" (lowerStr filename)) = false →
       evaluate filename extension = (0, "PENDING")) ∧
    (evaluate filename extension = (100, "TRASH_EXT") ∨
     evaluate filename extension = (100, "TRASH_SYS") ∨
     evaluate filename extension = (90, "CONFLICT_COPY") ∨
     evaluate filename extension = (0, "PENDING")) := by
  unfold evaluate
  split_ifs <;> simp_all

/-- Concrete instances of each of the four classifier rules. -/
theorem evaluate_first_match_witness :
    evaluate "x" ".bak" = (100, "TRASH_EXT") ∧
    evaluate "Thumbs.db" ".db" = (100, "TRASH_SYS") ∧
    evaluate "plan (conflit de copie).txt" ".txt" = (90, "CONFLICT_COPY") ∧
    evaluate "plan.txt" ".txt" = (0, "PENDING") :=
  ⟨(evaluate_first_match "x" ".bak").1 (by decide),
   (evaluate_first_match "Thumbs.db" ".db").2.1 (by decide) (by decide),
   (evaluate_first_match "plan (conflit de copie).txt" ".txt").2.2.1
     (by decide) (by decide) (by decide),
   (evaluate_first_match "plan.txt" ".txt").2.2.2.1 (by decide) (by decide) (by decide)⟩

/-! ## Claim C6 — the metadata dispatcher -/

/-- C6 counterexample: `.docx` belongs to the document family of
`settings.EXTENSION_MAP`, yet `MetadataDispatcher.dispatch` routes it
to no extractor and no table — so the claim that every document-format
extension maps to the Document extractor fails on the code. -/
theorem dispatch_family_cex :
    List.lookup ".docx" EXTENSION_MAP = some "meta_document" ∧
    dispatch ".docx" = (none, none) := by
  decide

/-- C6 (amended): `dispatch` maps the normalized lower-case extension
`.pdf` to the Document extractor and table, the six raster formats of
its image branch to the Image extractor, `.dwg/.dxf/.rvt/.ifc` to the
CAD extractor, `.xlsx/.xls/.csv` to the Spreadsheet extractor, and
every other extension — including the remaining family members of
`EXTENSION_MAP` and all archives — to `(none, empty)`; being a total
function of the extension, it never fails. -/
theorem dispatch_routes (extension : String) :
    (lowerStr extension = ".pdf" →
       dispatch extension = (some "meta_document", some Extractor.pdfExtractor)) ∧
    (lowerStr extension ∈ DISPATCH_IMG →
       dispatch extension = (some "meta_visual", some Extractor.imageExtractor)) ∧
    (lowerStr extension ∈ DISPATCH_CAD →
       dispatch extension = (some "meta_cad", some Extractor.cadExtractor)) ∧
    (lowerStr extension ∈ DISPATCH_XLS →
       dispatch extension = (some "meta_spreadsheet", some Extractor.spreadsheetExtractor)) ∧
    (lowerStr extension ≠ ".pdf" → lowerStr extension ∉ DISPATCH_IMG →
     lowerStr extension ∉ DISPATCH_CAD → lowerStr extension ∉ DISPATCH_XLS →
       dispatch extension = (none, none)) := by
  unfold dispatch
  generalize lowerStr extension = e
  refine ⟨?_, ?_, ?_, ?_, ?_⟩
  · rintro rfl; decide
  · intro h; fin_cases h <;> decide
  · intro h; fin_cases h <;> decide
  · intro h; fin_cases h <;> decide
  · intro h1 h2 h3 h4
    dsimp only
    split_ifs <;> simp_all [beq_iff_eq]

/-- Concrete routings for each dispatcher branch. -/
theorem dispatch_routes_witness :
    dispatch ".PDF" = (some "meta_document", some Extractor.pdfExtractor) ∧
    dispatch ".jpg" = (some "meta_visual", some Extractor.imageExtractor) ∧
    dispatch ".dwg" = (some "meta_cad", some Extractor.cadExtractor) ∧
    dispatch ".csv" = (some "meta_spreadsheet", some Extractor.spreadsheetExtractor) ∧
    dispatch ".zip" = (none, none) :=
  ⟨(dispatch_routes ".PDF").1 (by decide),
   (dispatch_routes ".jpg").2.1 (by decide),
   (dispatch_routes ".dwg").2.2.1 (by decide),
   (dispatch_routes ".csv").2.2.2.1 (by decide),
   (dispatch_routes ".zip").2.2.2.2 (by decide) (by decide) (by decide) (by decide)⟩

/-! ## Claim C9 — DWG signature analysis -/

/-- C9 counterexample: a `.dwg` file opening with six `0xFF` bytes has
no known signature and yields the label `Legacy/New ()`, which does
not contain those raw bytes (no character of the label is `0xFF`):
the generated label only carries the UTF-8-decodable part of the
header, not the raw bytes themselves. -/
theorem analyze_dwg_signature_cex :
    (analyze_dwg_binary (List.replicate 6 0xFF)).software_version = "Legacy/New ()" ∧
    ∀ c ∈ "Legacy/New ()".toList, c ≠ Char.ofNat 0xFF := by
  decide

/-- C9 (amended): on a readable `.dwg` file, if the first six bytes
equal a known signature the mapped human-readable version string is
reported; otherwise the reported label is `Legacy/New (...)` built
around the UTF-8 decoding of those bytes (undecodable bytes ignored),
so it contains the decodable part of the header and is never the
empty string; the analysis is total. -/
theorem analyze_dwg_signature (fileBytes : List Nat) :
    (∀ v, lookupSig (fileBytes.take 6) = some v →
       (analyze_dwg_binary fileBytes).software_version = v) ∧
    (lookupSig (fileBytes.take 6) = none →
       (analyze_dwg_binary fileBytes).software_version =
         "Legacy/New (" ++ (utf8DecodeIgnore (fileBytes.take 6)).asString ++ ")" ∧
       utf8DecodeIgnore (fileBytes.take 6) <:+:
         (analyze_dwg_binary fileBytes).software_version.toList ∧
       (analyze_dwg_binary fileBytes).software_version ≠ "") := by
  unfold analyze_dwg_binary
  constructor
  · intro v hv
    simp only [hv]
  · intro h
    simp only [h]
    refine ⟨trivial, ⟨"Legacy/New (".toList, ")".toList, ?_⟩, ?_⟩
    · rfl
    · intro he
      have hd := congrArg String.data he
      simp [String.data_append] at hd

/-- A recognized signature (`AC1032`) and an unrecognized ASCII
signature (`XXXXXX`), instantiating both branches. -/
theorem analyze_dwg_signature_witness :
    (analyze_dwg_binary [0x41, 0x43, 0x31, 0x30, 0x33, 0x32, 0x99, 0x07]).software_version
        = "AutoCAD 2018/2023" ∧
    (analyze_dwg_binary [0x58, 0x58, 0x58, 0x58, 0x58, 0x58, 0x07]).software_version
        = "Legacy/New (XXXXXX)" :=
  ⟨(analyze_dwg_signature [0x41, 0x43, 0x31, 0x30, 0x33, 0x32, 0x99, 0x07]).1
      "AutoCAD 2018/2023" (by decide),
   by
    have h := (analyze_dwg_signature [0x58, 0x58, 0x58, 0x58, 0x58, 0x58, 0x07]).2 (by decide)
    rw [h.1]; decide⟩

/-! ## Claim C7 — system-junk files are never hashed -/

/-- Only the second rule of the classifier can produce `TRASH_SYS`. -/
theorem eval_snd_trash_sys {fn ext : String}
    (h : (evaluate fn ext).2 = "TRASH_SYS") : evaluate fn ext = (100, "TRASH_SYS") := by
  unfold evaluate at h ⊢
  split_ifs at h ⊢ <;> simp_all

/-- C7: when the classifier labels a file `TRASH_SYS` (its lower-cased
name is a known system-junk filename and its extension is not itself
junk), the crawler's record carries the `SKIPPED_TRASH` content
sentinel and does not depend on the content-hashing function at all —
any two hashers give the identical record — while size, timestamps,
category and risk score are still recorded. -/
theorem trash_sys_skips_hashing (f : FileInfo)
    (h : (evaluate f.name (lowerStr (splitext f.name).2)).2 = "TRASH_SYS") :
    ∀ hasher1 hasher2 pathHasher : String → String,
      processFile hasher1 pathHasher f = processFile hasher2 pathHasher f ∧
      (processFile hasher1 pathHasher f).content_hash = SKIPPED_TRASH ∧
      (processFile hasher1 pathHasher f).size_bytes = f.size ∧
      (processFile hasher1 pathHasher f).dates_created = f.ctime ∧
      (processFile hasher1 pathHasher f).dates_modified = f.mtime ∧
      (processFile hasher1 pathHasher f).category = "TRASH_SYS" ∧
      (processFile hasher1 pathHasher f).risk_score = 100 := by
  intro hasher1 hasher2 pathHasher
  have hev := eval_snd_trash_sys h
  simp [processFile, hev]

/-- A `Thumbs.db` entry processed with two different hashers: same
record, sentinel content identity, metadata persisted. -/
theorem trash_sys_skips_hashing_witness :
    processFile (fun _ => "H1") (fun _ => "P") ⟨"Thumbs.db", "/x/Thumbs.db", 3, "c", "m"⟩ =
      processFile (fun _ => "H2") (fun _ => "P") ⟨"Thumbs.db", "/x/Thumbs.db", 3, "c", "m"⟩ ∧
    (processFile (fun _ => "H1") (fun _ => "P")
        ⟨"Thumbs.db", "/x/Thumbs.db", 3, "c", "m"⟩).content_hash = SKIPPED_TRASH ∧
    (processFile (fun _ => "H1") (fun _ => "P")
        ⟨"Thumbs.db", "/x/Thumbs.db", 3, "c", "m"⟩).size_bytes = 3 ∧
    (processFile (fun _ => "H1") (fun _ => "P")
        ⟨"Thumbs.db", "/x/Thumbs.db", 3, "c", "m"⟩).dates_created = "c" ∧
    (processFile (fun _ => "H1") (fun _ => "P")
        ⟨"Thumbs.db", "/x/Thumbs.db", 3, "c", "m"⟩).dates_modified = "m" ∧
    (processFile (fun _ => "H1") (fun _ => "P")
        ⟨"Thumbs.db", "/x/Thumbs.db", 3, "c", "m"⟩).category = "TRASH_SYS" ∧
    (processFile (fun _ => "H1") (fun _ => "P")
        ⟨"Thumbs.db", "/x/Thumbs.db", 3, "c", "m"⟩).risk_score = 100 :=
  trash_sys_skips_hashing ⟨"Thumbs.db", "/x/Thumbs.db", 3, "c", "m"⟩ (by decide)
    (fun _ => "H1") (fun _ => "H2") (fun _ => "P")

/-! ## Store lemmas -/

theorem map_eq_self_of {α : Type} {f : α → α} {l : List α} (h : ∀ a ∈ l, f a = a) :
    l.map f = l := by
  induction l with
  | nil => rfl
  | cons x t ih =>
    simp only [List.map_cons, h x (by simp)]
    rw [ih (fun a ha => h a (by simp [ha]))]

theorem map_congr_of {α β : Type} {f g : α → β} {l : List α} (h : ∀ a ∈ l, f a = g a) :
    l.map f = l.map g := by
  induction l with
  | nil => rfl
  | cons x t ih =>
    simp only [List.map_cons, h x (by simp)]
    rw [ih (fun a ha => h a (by simp [ha]))]

theorem updateRow_file_path (r : Row) (d : MainData) :
    (updateRow r d).file_path = r.file_path := rfl

theorem updateRow_idem (r : Row) (d : MainData) :
    updateRow (updateRow r d) d = updateRow r d := rfl

theorem updateRow_rowOfData (i : Nat) (d : MainData) :
    updateRow (rowOfData i d) d = rowOfData i d := rfl

/-- After the upsert there is always a row at the record's path. -/
theorem any_path_upsertMain (st : Store) (d : MainData) :
    (upsertMain st d).rows.any (fun r => r.file_path == d.file_path) = true := by
  unfold upsertMain
  split_ifs with h
  · rw [List.any_map]
    rw [List.any_eq_true] at h ⊢
    obtain ⟨r, hr, hp⟩ := h
    refine ⟨r, hr, ?_⟩
    show ((if r.file_path == d.file_path then updateRow r d else r).file_path ==
      d.file_path) = true
    rw [if_pos hp]
    exact hp
  · simp [rowOfData]

/-- The post-upsert `SELECT id ... WHERE file_path = ?` always finds a
row (the `ID non retrouvé` branch of the source is unreachable). -/
theorem find_upsertMain (st : Store) (d : MainData) :
    ∃ row, (upsertMain st d).rows.find? (fun r => r.file_path == d.file_path) = some row := by
  have h := any_path_upsertMain st d
  rw [List.any_eq_true] at h
  obtain ⟨r, hr, hp⟩ := h
  have : ((upsertMain st d).rows.find? (fun r => r.file_path == d.file_path)).isSome := by
    rw [List.find?_isSome]
    exact ⟨r, hr, hp⟩
  exact Option.isSome_iff_exists.mp this

theorem rows_attachMeta (st1 : Store) (fid : Nat) (mt : Option String) (md : MetaPayload) :
    (attachMeta st1 fid mt md).rows = st1.rows := by
  unfold attachMeta
  cases mt
  · rfl
  · dsimp only; split <;> rfl

theorem nextId_attachMeta (st1 : Store) (fid : Nat) (mt : Option String) (md : MetaPayload) :
    (attachMeta st1 fid mt md).nextId = st1.nextId := by
  unfold attachMeta
  cases mt
  · rfl
  · dsimp only; split <;> rfl

theorem rows_insert_full_entry (st : Store) (d : MainData) (mt : Option String)
    (md : MetaPayload) :
    (insert_full_entry st d mt md).rows = (upsertMain st d).rows := by
  obtain ⟨row, hrow⟩ := find_upsertMain st d
  unfold insert_full_entry
  simp only [hrow, rows_attachMeta]

/-! ## Claim C8 — transactional atomicity and local failure -/

/-- C8: a storage failure injected at any of the three statements of
`insert_full_entry` — the parent upsert, the id re-selection, or the
satellite insert — rolls the whole transaction back (the committed
store is returned unchanged), the reported error carries the
offending filename, and the crawl loop goes on to process the
remaining files from that unchanged store. -/
theorem insert_full_entry_atomic (st : Store) (d : MainData) (mt : Option String)
    (md : MetaPayload) (fp : FailPoint) (m : String) (rest : List Job) :
    insert_full_entry_tx st d mt md (some (fp, m)) = (st, some (sqlError d.filename m)) ∧
    crawlFold st ({ data := d, table := mt, payload := md, fail := some (fp, m) } :: rest) =
      ((crawlFold st rest).1, sqlError d.filename m :: (crawlFold st rest).2) := by
  obtain ⟨row, hrow⟩ := find_upsertMain st d
  have h1 : insert_full_entry_tx st d mt md (some (fp, m)) =
      (st, some (sqlError d.filename m)) := by
    cases fp
    · rfl
    · rfl
    · unfold insert_full_entry_tx upsertSteps
      simp only [hrow]
  refine ⟨h1, ?_⟩
  simp only [crawlFold, h1, Option.toList_some, List.singleton_append]

theorem pathsUnique_upsertMain (st : Store) (d : MainData) (hu : PathsUnique st.rows) :
    PathsUnique (upsertMain st d).rows := by
  unfold upsertMain
  split_ifs with h
  · show PathsUnique (st.rows.map fun r =>
      if r.file_path == d.file_path then updateRow r d else r)
    unfold PathsUnique at *
    rw [List.pairwise_map]
    have key : ∀ r : Row,
        (if r.file_path == d.file_path then updateRow r d else r).file_path =
          r.file_path := by
      intro r; split <;> rfl
    exact hu.imp (fun {a b} hab => by rw [key, key]; exact hab)
  · show PathsUnique (st.rows ++ [rowOfData st.nextId d])
    unfold PathsUnique at *
    rw [List.pairwise_append]
    refine ⟨hu, List.pairwise_singleton _ _, ?_⟩
    intro a ha b hb
    rw [List.mem_singleton] at hb
    subst hb
    rw [Bool.not_eq_true, List.any_eq_false] at h
    have := h a ha
    simpa [rowOfData] using this

/-- In a unique-path row list, the path determines the row. -/
theorem pairwise_key_eq {l : List Row} (hu : PathsUnique l) :
    ∀ a ∈ l, ∀ b ∈ l, a.file_path = b.file_path → a = b := by
  induction l with
  | nil => simp
  | cons x t ih =>
    rw [PathsUnique, List.pairwise_cons] at hu
    intro a ha b hb hab
    rcases List.mem_cons.mp ha with rfl | ha2 <;> rcases List.mem_cons.mp hb with rfl | hb2
    · rfl
    · exact absurd hab (hu.1 b hb2)
    · exact absurd hab.symm (hu.1 a ha2)
    · exact ih hu.2 a ha2 b hb2 hab

/-! ## Claim C1 — upsert-by-path: in-place update, no duplicate row -/

/-- C1 counterexample: re-observing path `/p` with a new size (7), a
new category (`TRASH_EXT`), a new content hash and a new risk score
leaves the stored row with its OLD size (5) and OLD category
(`WORK_FILE`) — only content hash, modification date, status and risk
score are overwritten — so the claim that a second upsert updates
size and category in place is false on the code. -/
theorem upsert_in_place_cex :
    cexD1.size_bytes = 7 ∧ cexD1.category = "TRASH_EXT" ∧
    ((insert_full_entry (insert_full_entry emptyStore cexD0 none
        ([] : List (String × String))) cexD1 none ([] : List (String × String))).rows.map
      (fun r => (r.size_bytes, r.category, r.content_hash, r.risk_score, r.dates_modified))) =
      [(5, "WORK_FILE", "c1", 100, "t1")] := by
  decide

/-- C1 (amended): when a record's absolute path already has a parent
row, the upsert keeps the row count, overwrites exactly the content
fingerprint, modification timestamp, status and risk score of that
row in place (size, category, creation date and identity fields are
left as they were), leaves it the only row at that path, and path
uniqueness is preserved by every upsert. -/
theorem upsert_in_place (st : Store) (d : MainData) (mt : Option String) (md : MetaPayload)
    (hu : PathsUnique st.rows) :
    PathsUnique (insert_full_entry st d mt md).rows ∧
    (∀ r ∈ st.rows, r.file_path = d.file_path →
      (insert_full_entry st d mt md).rows.length = st.rows.length ∧
      updateRow r d ∈ (insert_full_entry st d mt md).rows ∧
      ∀ r2 ∈ (insert_full_entry st d mt md).rows,
        r2.file_path = d.file_path → r2 = updateRow r d) := by
  rw [rows_insert_full_entry]
  refine ⟨pathsUnique_upsertMain st d hu, ?_⟩
  intro r hr hrfp
  have hany : st.rows.any (fun r => r.file_path == d.file_path) = true := by
    rw [List.any_eq_true]
    exact ⟨r, hr, by simp [hrfp]⟩
  unfold upsertMain
  rw [if_pos hany]
  have hfr : (if r.file_path == d.file_path then updateRow r d else r) = updateRow r d := by
    simp [hrfp]
  refine ⟨by simp, ?_, ?_⟩
  · rw [← hfr]
    exact List.mem_map_of_mem _ hr
  · intro r2 hr2 hr2fp
    obtain ⟨a, ha, hfa⟩ := List.mem_map.mp hr2
    by_cases hp : (a.file_path == d.file_path) = true
    · rw [if_pos hp] at hfa
      have hafp : a.file_path = d.file_path := by
        have := hp
        rwa [beq_iff_eq] at this
      have : a = r := pairwise_key_eq hu a ha r hr (hafp.trans hrfp.symm)
      rw [← hfa, this]
    · rw [if_neg hp] at hfa
      exfalso
      apply hp
      rw [beq_iff_eq, hfa, hr2fp]

theorem store_ext_fields {a b : Store} (h1 : a.rows = b.rows) (h2 : a.nextId = b.nextId)
    (h3 : a.meta = b.meta) : a = b := by
  cases a; cases b; simp_all

/-- Re-applying the conflict update to an already-upserted row list
changes nothing: every row at the record's path already carries the
record's four updated columns. -/
theorem map_upd_upsertMain (st : Store) (d : MainData) :
    ((upsertMain st d).rows.map
      (fun r => if r.file_path == d.file_path then updateRow r d else r)) =
    (upsertMain st d).rows := by
  have fidem : ∀ r : Row,
      (if (if r.file_path == d.file_path then updateRow r d else r).file_path == d.file_path
        then updateRow (if r.file_path == d.file_path then updateRow r d else r) d
        else (if r.file_path == d.file_path then updateRow r d else r)) =
      (if r.file_path == d.file_path then updateRow r d else r) := by
    intro r
    by_cases hp : (r.file_path == d.file_path) = true
    · rw [if_pos hp, if_pos (show ((updateRow r d).file_path == d.file_path) = true from hp),
        updateRow_idem]
    · rw [if_neg hp, if_neg hp]
  unfold upsertMain
  split_ifs with h
  · show ((st.rows.map _).map _) = st.rows.map _
    rw [List.map_map]
    exact map_congr_of (fun a _ => fidem a)
  · show ((st.rows ++ [rowOfData st.nextId d]).map _) = st.rows ++ [rowOfData st.nextId d]
    rw [List.map_append]
    rw [Bool.not_eq_true, List.any_eq_false] at h
    have h1 : st.rows.map
        (fun r => if r.file_path == d.file_path then updateRow r d else r) = st.rows := by
      apply map_eq_self_of
      intro a ha
      rw [if_neg (by simpa using h a ha)]
    have h2 : [rowOfData st.nextId d].map
        (fun r => if r.file_path == d.file_path then updateRow r d else r) =
        [rowOfData st.nextId d] := by
      simp only [List.map_cons, List.map_nil]
      rw [if_pos (show ((rowOfData st.nextId d).file_path == d.file_path) = true by simp [rowOfData]),
        updateRow_rowOfData]
    rw [h1, h2]

/-- Replacing a satellite row twice with the same payload equals
replacing it once. -/
theorem metaReplace_idem (m : List (String × Nat × MetaPayload)) (t : String) (i : Nat)
    (p : MetaPayload) :
    metaReplace (metaReplace m t i p) t i p = metaReplace m t i p := by
  by_cases h : (m.any (fun e => e.1 == t && e.2.1 == i)) = true
  · have hstep : metaReplace m t i p =
        m.map (fun e => if e.1 == t && e.2.1 == i then (t, i, p) else e) := by
      unfold metaReplace; rw [if_pos h]
    rw [hstep]
    have hany2 : ((m.map (fun e => if e.1 == t && e.2.1 == i then (t, i, p) else e)).any
        (fun e => e.1 == t && e.2.1 == i)) = true := by
      rw [List.any_eq_true] at h ⊢
      obtain ⟨e, he, hk⟩ := h
      refine ⟨_, List.mem_map_of_mem _ he, ?_⟩
      show (((if e.1 == t && e.2.1 == i then (t, i, p) else e)).1 == t &&
        ((if e.1 == t && e.2.1 == i then (t, i, p) else e)).2.1 == i) = true
      rw [if_pos hk]
      simp
    unfold metaReplace
    rw [if_pos hany2, List.map_map]
    apply map_congr_of
    intro e _
    show (if (if e.1 == t && e.2.1 == i then (t, i, p) else e).1 == t &&
            (if e.1 == t && e.2.1 == i then (t, i, p) else e).2.1 == i
          then (t, i, p)
          else (if e.1 == t && e.2.1 == i then (t, i, p) else e)) =
      (if e.1 == t && e.2.1 == i then (t, i, p) else e)
    by_cases hk : (e.1 == t && e.2.1 == i) = true
    · rw [if_pos hk, if_pos (by simp : (((t, i, p) : String × Nat × MetaPayload).1 == t &&
        ((t, i, p) : String × Nat × MetaPayload).2.1 == i) = true)]
    · rw [if_neg hk, if_neg hk]
  · have hstep : metaReplace m t i p = m ++ [(t, i, p)] := by
      unfold metaReplace; rw [if_neg h]
    rw [hstep]
    have hany2 : ((m ++ [(t, i, p)]).any (fun e => e.1 == t && e.2.1 == i)) = true := by
      simp
    unfold metaReplace
    rw [if_pos hany2, List.map_append]
    rw [Bool.not_eq_true, List.any_eq_false] at h
    have h1 : m.map (fun e => if e.1 == t && e.2.1 == i then (t, i, p) else e) = m := by
      apply map_eq_self_of
      intro e he
      rw [if_neg (by simpa using h e he)]
    have h2 : [((t, i, p) : String × Nat × MetaPayload)].map
        (fun e => if e.1 == t && e.2.1 == i then (t, i, p) else e) = [(t, i, p)] := by
      simp only [List.map_cons, List.map_nil]
      rw [if_pos (by simp : (((t, i, p) : String × Nat × MetaPayload).1 == t &&
        ((t, i, p) : String × Nat × MetaPayload).2.1 == i) = true)]
    rw [h1, h2]

/-- Component equations of `upsertMain` when the path is present. -/
theorem upsertMain_of_any (st2 : Store) (d : MainData)
    (h : (st2.rows.any (fun r => r.file_path == d.file_path)) = true) :
    (upsertMain st2 d).rows =
      st2.rows.map (fun r => if r.file_path == d.file_path then updateRow r d else r) ∧
    (upsertMain st2 d).nextId = st2.nextId ∧
    (upsertMain st2 d).meta = st2.meta := by
  unfold upsertMain
  rw [if_pos h]
  exact ⟨rfl, rfl, rfl⟩

theorem attachMeta_none (st1 : Store) (fid : Nat) (md : MetaPayload) :
    attachMeta st1 fid none md = st1 := rfl

theorem attachMeta_some_pos (st1 : Store) (fid : Nat) (t : String) (md : MetaPayload)
    (hg : t ≠ "" ∧ md ≠ ([] : List (String × String))) :
    attachMeta st1 fid (some t) md = { st1 with meta := metaReplace st1.meta t fid md } := by
  unfold attachMeta
  dsimp only
  rw [if_pos hg]

theorem attachMeta_some_neg (st1 : Store) (fid : Nat) (t : String) (md : MetaPayload)
    (hg : ¬(t ≠ "" ∧ md ≠ ([] : List (String × String)))) :
    attachMeta st1 fid (some t) md = st1 := by
  unfold attachMeta
  dsimp only
  rw [if_neg hg]

/-- `insert_full_entry` reduced through its (always successful) id
re-selection. -/
theorem insert_full_entry_eq (st : Store) (d : MainData) (mt : Option String)
    (md : MetaPayload) {row : Row}
    (hrow : (upsertMain st d).rows.find? (fun r => r.file_path == d.file_path) = some row) :
    insert_full_entry st d mt md = attachMeta (upsertMain st d) row.id mt md := by
  unfold insert_full_entry
  simp only [hrow]

/-! ## Claim C5 — idempotent upsert -/

/-- C5: re-applying `insert_full_entry` with the same assembled record
leaves the store exactly as after the first application (same parent
rows — hence same row count and the same content fingerprints — same
rowid counter, same satellite rows), and the upsert never introduces
a duplicate path row (path uniqueness is preserved); this is the
store-level form of re-crawling an unchanged tree. -/
theorem insert_full_entry_idem (st : Store) (d : MainData) (mt : Option String)
    (md : MetaPayload) :
    insert_full_entry (insert_full_entry st d mt md) d mt md =
      insert_full_entry st d mt md ∧
    (PathsUnique st.rows → PathsUnique (insert_full_entry st d mt md).rows) := by
  refine ⟨?_, fun hu => by
    rw [rows_insert_full_entry]; exact pathsUnique_upsertMain st d hu⟩
  obtain ⟨row, hrow⟩ := find_upsertMain st d
  have hE := insert_full_entry_eq st d mt md hrow
  have hErows : (insert_full_entry st d mt md).rows = (upsertMain st d).rows :=
    rows_insert_full_entry st d mt md
  have hEnext : (insert_full_entry st d mt md).nextId = (upsertMain st d).nextId := by
    rw [hE, nextId_attachMeta]
  have hany2 : ((insert_full_entry st d mt md).rows.any
      (fun r => r.file_path == d.file_path)) = true := by
    rw [hErows]
    exact any_path_upsertMain st d
  obtain ⟨hU2rows, hU2next, hU2meta⟩ := upsertMain_of_any (insert_full_entry st d mt md) d hany2
  have hU2rows2 : (upsertMain (insert_full_entry st d mt md) d).rows =
      (upsertMain st d).rows := by
    rw [hU2rows, hErows]
    exact map_upd_upsertMain st d
  have hfind2 : (upsertMain (insert_full_entry st d mt md) d).rows.find?
      (fun r => r.file_path == d.file_path) = some row := by
    rw [hU2rows2]
    exact hrow
  rw [insert_full_entry_eq (insert_full_entry st d mt md) d mt md hfind2]
  cases mt with
  | none =>
    rw [attachMeta_none]
    apply store_ext_fields
    · rw [hU2rows2]
      exact hErows.symm
    · rw [hU2next, hEnext]
    · exact hU2meta
  | some t =>
    by_cases hg : t ≠ "" ∧ md ≠ ([] : List (String × String))
    · rw [attachMeta_some_pos _ _ _ _ hg]
      apply store_ext_fields

      · show (upsertMain (insert_full_entry st d (some t) md) d).rows =
          (insert_full_entry st d (some t) md).rows
        rw [hU2rows2]
        exact hErows.symm
      · exact hU2next
      · show metaReplace (upsertMain (insert_full_entry st d (some t) md) d).meta t row.id md =
          (insert_full_entry st d (some t) md).meta
        rw [hU2meta, hE, attachMeta_some_pos _ _ _ _ hg]
        exact metaReplace_idem _ t row.id md
    · rw [attachMeta_some_neg _ _ _ _ hg]
      apply store_ext_fields
      · rw [hU2rows2]
        exact hErows.symm
      · exact hU2next
      · exact hU2meta

/-- The amended in-place update on a concrete one-row store. -/
theorem upsert_in_place_witness :
    PathsUnique (insert_full_entry (insert_full_entry emptyStore cexD0 none
        ([] : List (String × String))) cexD1 none ([] : List (String × String))).rows ∧
    (insert_full_entry (insert_full_entry emptyStore cexD0 none ([] : List (String × String)))
        cexD1 none ([] : List (String × String))).rows.length =
      (insert_full_entry emptyStore cexD0 none ([] : List (String × String))).rows.length ∧
    updateRow (rowOfData 1 cexD0) cexD1 ∈
      (insert_full_entry (insert_full_entry emptyStore cexD0 none ([] : List (String × String)))
        cexD1 none ([] : List (String × String))).rows := by
  have hu : PathsUnique (insert_full_entry emptyStore cexD0 none
      ([] : List (String × String))).rows := by
    rw [show (insert_full_entry emptyStore cexD0 none ([] : List (String × String))).rows =
      [rowOfData 1 cexD0] from by decide]
    exact List.pairwise_singleton _ _
  have h := upsert_in_place _ cexD1 none ([] : List (String × String)) hu
  exact ⟨h.1, (h.2 (rowOfData 1 cexD0) (by decide) (by decide)).1,
    (h.2 (rowOfData 1 cexD0) (by decide) (by decide)).2.1⟩

/-- Idempotence on a concrete record with a satellite payload. -/
theorem insert_full_entry_idem_witness :
    insert_full_entry (insert_full_entry emptyStore cexD0 (some "meta_cad")
        [("software_version", "AutoCAD 2018/2023")]) cexD0 (some "meta_cad")
        [("software_version", "AutoCAD 2018/2023")] =
      insert_full_entry emptyStore cexD0 (some "meta_cad")
        [("software_version", "AutoCAD 2018/2023")] ∧
    PathsUnique (insert_full_entry emptyStore cexD0 (some "meta_cad")
        [("software_version", "AutoCAD 2018/2023")]).rows := by
  have h := insert_full_entry_idem emptyStore cexD0 (some "meta_cad")
    [("software_version", "AutoCAD 2018/2023")]
  exact ⟨h.1, h.2 (by simp [PathsUnique, emptyStore])⟩

/-! ## Duplicate-query lemmas -/

theorem mem_insertByWasted {a g : DupGroup} {l : List DupGroup} :
    a ∈ insertByWasted g l ↔ a = g ∨ a ∈ l := by
  induction l with
  | nil => simp [insertByWasted]
  | cons h t ih =>
    unfold insertByWasted
    split_ifs with hc
    · simp [List.mem_cons]
    · simp only [List.mem_cons, ih]
      tauto

theorem mem_sortByWasted {a : DupGroup} {l : List DupGroup} :
    a ∈ sortByWasted l ↔ a ∈ l := by
  induction l with
  | nil => simp [sortByWasted]
  | cons h t ih =>
    show a ∈ insertByWasted h (sortByWasted t) ↔ _
    rw [mem_insertByWasted, ih]
    simp [List.mem_cons]

theorem pairwise_insertByWasted {g : DupGroup} {l : List DupGroup}
    (hl : l.Pairwise (fun a b => b.total_wasted ≤ a.total_wasted)) :
    (insertByWasted g l).Pairwise (fun a b => b.total_wasted ≤ a.total_wasted) := by
  induction l with
  | nil => simp [insertByWasted]
  | cons h t ih =>
    rw [List.pairwise_cons] at hl
    unfold insertByWasted
    split_ifs with hc
    · rw [List.pairwise_cons]
      refine ⟨?_, List.pairwise_cons.mpr hl⟩
      intro b hb
      rcases List.mem_cons.mp hb with rfl | hb2
      · exact le_of_lt hc
      · exact le_trans (hl.1 b hb2) (le_of_lt hc)
    · rw [List.pairwise_cons]
      refine ⟨?_, ih hl.2⟩
      intro b hb
      rcases mem_insertByWasted.mp hb with rfl | hb2
      · exact le_of_not_lt hc
      · exact hl.1 b hb2

theorem pairwise_sortByWasted (l : List DupGroup) :
    (sortByWasted l).Pairwise (fun a b => b.total_wasted ≤ a.total_wasted) := by
  induction l with
  | nil => simp [sortByWasted]
  | cons h t ih =>
    show (insertByWasted h (sortByWasted t)).Pairwise _
    exact pairwise_insertByWasted ih

theorem mem_distinctKeys {a : String} {l : List String} :
    a ∈ distinctKeys l ↔ a ∈ l := by
  induction l with
  | nil => simp [distinctKeys]
  | cons h t ih =>
    show a ∈ h :: (distinctKeys t).filter (fun x => x != h) ↔ _
    rw [List.mem_cons, List.mem_cons]
    constructor
    · rintro (rfl | hmem)
      · exact Or.inl rfl
      · exact Or.inr (ih.mp (List.mem_of_mem_filter hmem))
    · rintro (rfl | hmem)
      · exact Or.inl rfl
      · by_cases hah : a = h
        · exact Or.inl hah
        · refine Or.inr (List.mem_filter.mpr ⟨ih.mpr hmem, ?_⟩)
          simp [hah]

/-- The two query filters compose into the member set of one group. -/
theorem groupFor_dupFilter (rows : List Row) (h : String) :
    groupFor (dupFilter rows) h = membersOf rows h := by
  unfold groupFor dupFilter membersOf
  rw [List.filter_filter]

/-- Every result of `get_duplicates` is the aggregate of its own
fingerprint's member set, with more than one member. -/
theorem get_duplicates_shape {rows : List Row} {g : DupGroup}
    (hg : g ∈ get_duplicates rows) :
    g = mkGroup (dupFilter rows) g.content_hash ∧ 1 < g.count := by
  unfold get_duplicates at hg
  rw [mem_sortByWasted, List.mem_filter] at hg
  obtain ⟨hmem, hcount⟩ := hg
  obtain ⟨hsh, hin, rfl⟩ := List.mem_map.mp hmem
  exact ⟨rfl, by simpa using hcount⟩

/-- A fingerprint with at least two non-trash rows yields a result group. -/
theorem mkGroup_mem_get_duplicates {rows : List Row} {h : String}
    (h2 : 2 ≤ (membersOf rows h).length) :
    mkGroup (dupFilter rows) h ∈ get_duplicates rows := by
  obtain ⟨r, hr⟩ : ∃ r, r ∈ membersOf rows h := by
    cases hm : membersOf rows h with
    | nil => rw [hm] at h2; simp at h2
    | cons x t => exact ⟨x, List.mem_cons_self x t⟩
  have hrf : r ∈ dupFilter rows ∧ (r.content_hash == h) = true := by
    have hr2 := hr
    rw [← groupFor_dupFilter] at hr2
    exact List.mem_filter.mp hr2
  have hkey : h ∈ (dupFilter rows).map (fun r => r.content_hash) := by
    rw [List.mem_map]
    refine ⟨r, hrf.1, ?_⟩
    have := hrf.2
    rwa [beq_iff_eq] at this
  have hcnt : (mkGroup (dupFilter rows) h).count = (membersOf rows h).length := by
    show (groupFor (dupFilter rows) h).length = _
    rw [groupFor_dupFilter]
  unfold get_duplicates
  rw [mem_sortByWasted, List.mem_filter]
  refine ⟨List.mem_map_of_mem _ (mem_distinctKeys.mpr hkey), ?_⟩
  simp only [decide_eq_true_eq, hcnt]
  omega

theorem sum_map_const_of {l : List Row} {s : Nat} (h : ∀ r ∈ l, r.size_bytes = s) :
    (l.map (fun r => r.size_bytes)).sum = l.length * s := by
  induction l with
  | nil => simp
  | cons x t ih =>
    simp only [List.map_cons, List.sum_cons, List.length_cons, h x (by simp)]
    rw [ih (fun r hr => h r (by simp [hr]))]
    ring

/-! ## Claim C3 — the duplicate query -/

/-- C3: every group `get_duplicates` returns has at least two members;
its member count, summed size and concatenated paths are exactly
those of the non-`TRASH_EXT` rows bearing its fingerprint (so every
`TRASH_EXT` row is excluded no matter its fingerprint); every
fingerprint with more than one non-trash row produces a group; and
the result is ordered by summed size descending. -/
theorem get_duplicates_spec (rows : List Row) :
    (∀ g ∈ get_duplicates rows,
       2 ≤ g.count ∧
       g.count = (membersOf rows g.content_hash).length ∧
       g.total_wasted = ((membersOf rows g.content_hash).map (fun r => r.size_bytes)).sum ∧
       g.paths = String.intercalate " || "
         ((membersOf rows g.content_hash).map (fun r => r.file_path)) ∧
       ∀ r ∈ membersOf rows g.content_hash, r.category ≠ "TRASH_EXT") ∧
    (∀ hsh, 2 ≤ (membersOf rows hsh).length →
       ∃ g ∈ get_duplicates rows, g.content_hash = hsh ∧
         g.count = (membersOf rows hsh).length) ∧
    (get_duplicates rows).Pairwise (fun a b => b.total_wasted ≤ a.total_wasted) := by
  refine ⟨?_, ?_, ?_⟩
  · intro g hg
    obtain ⟨hshape, hcount⟩ := get_duplicates_shape hg
    have hc : g.count = (membersOf rows g.content_hash).length := by
      conv_lhs => rw [hshape]
      show (groupFor (dupFilter rows) g.content_hash).length = _
      rw [groupFor_dupFilter]
    refine ⟨by omega, hc, ?_, ?_, ?_⟩
    · conv_lhs => rw [hshape]
      show ((groupFor (dupFilter rows) g.content_hash).map _).sum = _
      rw [groupFor_dupFilter]
    · conv_lhs => rw [hshape]
      show String.intercalate " || " ((groupFor (dupFilter rows) g.content_hash).map _) = _
      rw [groupFor_dupFilter]
    · intro r hrm
      have hmf := (List.mem_filter.mp hrm).2
      intro hq
      rw [hq] at hmf
      simp at hmf
  · intro hsh h2
    refine ⟨mkGroup (dupFilter rows) hsh, mkGroup_mem_get_duplicates h2, rfl, ?_⟩
    show (groupFor (dupFilter rows) hsh).length = _
    rw [groupFor_dupFilter]
  · unfold get_duplicates
    exact pairwise_sortByWasted _

/-- The query on two identical-fingerprint work files. -/
theorem get_duplicates_spec_witness :
    2 ≤ (membersOf wRowsDup "h").length ∧
    ∃ g ∈ get_duplicates wRowsDup, g.content_hash = "h" ∧ g.count = 2 := by
  refine ⟨by decide, ?_⟩
  obtain ⟨g, hg, hh, hc⟩ := (get_duplicates_spec wRowsDup).2.1 "h" (by decide)
  refine ⟨g, hg, hh, ?_⟩
  rw [hc]
  decide

/-! ## Claim C4 — wasted size of an equal-size duplicate group -/

/-- C4: for a duplicate group whose members (the non-trash rows with
its fingerprint, e.g. rows of identical byte content) all have size
`s`, the group's summed size is `count * s` and the reclaimable size
printed by `generate_report` equals the summed size minus one
member's size — the group keeps one copy. -/
theorem dup_group_wasted (rows : List Row) (g : DupGroup) (s : Nat)
    (hg : g ∈ get_duplicates rows)
    (hs : ∀ r ∈ rows, r.category ≠ "TRASH_EXT" → r.content_hash = g.content_hash →
       r.size_bytes = s) :
    wastedOf g = (g.total_wasted : ℚ) - (s : ℚ) ∧
    g.total_wasted = ((membersOf rows g.content_hash).map (fun r => r.size_bytes)).sum ∧
    g.total_wasted = g.count * s := by
  obtain ⟨hshape, hcount⟩ := get_duplicates_shape hg
  have hms : ∀ r ∈ membersOf rows g.content_hash, r.size_bytes = s := by
    intro r hrm
    obtain ⟨hrr, hcond⟩ := List.mem_filter.mp hrm
    rw [Bool.and_eq_true] at hcond
    refine hs r hrr ?_ ?_
    · intro hq
      rw [hq] at hcond
      simp at hcond
    · have := hcond.1
      rwa [beq_iff_eq] at this
  have hcnt : g.count = (membersOf rows g.content_hash).length := by
    conv_lhs => rw [hshape]
    show (groupFor (dupFilter rows) g.content_hash).length = _
    rw [groupFor_dupFilter]
  have htot : g.total_wasted =
      ((membersOf rows g.content_hash).map (fun r => r.size_bytes)).sum := by
    conv_lhs => rw [hshape]
    show ((groupFor (dupFilter rows) g.content_hash).map _).sum = _
    rw [groupFor_dupFilter]
  have htotal : g.total_wasted = g.count * s := by
    rw [htot, sum_map_const_of hms, hcnt]
  refine ⟨?_, htot, htotal⟩
  unfold wastedOf
  have hne : (g.count : ℚ) ≠ 0 := Nat.cast_ne_zero.mpr (by omega)
  rw [htotal]
  push_cast
  field_simp

/-- The group of two 10-byte identical files wastes 20 − 10 bytes. -/
theorem dup_group_wasted_witness :
    { content_hash := "h", count := 2, paths := "/a || /b", total_wasted := 20 : DupGroup }
        ∈ get_duplicates wRowsDup ∧
    wastedOf { content_hash := "h", count := 2, paths := "/a || /b", total_wasted := 20 } =
      (20 : ℚ) - 10 ∧
    (20 : Nat) = 2 * 10 := by
  have h := dup_group_wasted wRowsDup
    { content_hash := "h", count := 2, paths := "/a || /b", total_wasted := 20 } 10
    (by decide) (by decide)
  exact ⟨by decide, h.1, by decide⟩

/-! ## Claim C10 — sentinel fingerprints are not excluded from duplicates -/

/-- C10: rows whose content identity is one of the sentinels are
treated like any fingerprint by `get_duplicates`, because the query
filters on category (`TRASH_EXT`) only: whenever at least two
non-`TRASH_EXT` rows carry the skipped-hash sentinel (`TRASH_SYS`
rows) or the unreadable-file sentinel, the result contains a group
keyed by that sentinel aggregating all of them. -/
theorem sentinel_rows_form_groups (rows : List Row) :
    (2 ≤ (membersOf rows SKIPPED_TRASH).length →
       ∃ g ∈ get_duplicates rows, g.content_hash = SKIPPED_TRASH ∧
         g.count = (membersOf rows SKIPPED_TRASH).length) ∧
    (2 ≤ (membersOf rows ACCESS_DENIED).length →
       ∃ g ∈ get_duplicates rows, g.content_hash = ACCESS_DENIED ∧
         g.count = (membersOf rows ACCESS_DENIED).length) := by
  constructor <;> intro h2 <;>
    refine ⟨mkGroup (dupFilter rows) _, mkGroup_mem_get_duplicates h2, rfl, ?_⟩ <;>
    · show (groupFor (dupFilter rows) _).length = _
      rw [groupFor_dupFilter]

/-- Two `SKIPPED_TRASH` rows and two `ACCESS_DENIED` rows each form a
duplicate group. -/
theorem sentinel_rows_form_groups_witness :
    (∃ g ∈ get_duplicates wRowsSent, g.content_hash = SKIPPED_TRASH ∧ g.count = 2) ∧
    (∃ g ∈ get_duplicates wRowsSent, g.content_hash = ACCESS_DENIED ∧ g.count = 2) := by
  have h := sentinel_rows_form_groups wRowsSent
  obtain ⟨g1, hg1, hh1, hc1⟩ := h.1 (by decide)
  obtain ⟨g2, hg2, hh2, hc2⟩ := h.2 (by decide)
  exact ⟨⟨g1, hg1, hh1, by rw [hc1]; decide⟩, ⟨g2, hg2, hh2, by rw [hc2]; decide⟩⟩

end CleanCloud
